import Mathlib

/-!
Shallow embedding of `src/pool_inner.rs` (the `tang_rs` connection-pool core).

The Rust module keeps a `PoolInner` record (spawned counter, pending queue,
idle-connection queue, waiter registry) behind one mutex, plus the acquisition
future `PoolLockFuture`.  Here each operation is embedded as a pure function on
an explicit `PoolInner` state; the mutex is left implicit because every public
operation is one critical section.  Machine counters (`u8`/`usize`) are
modelled as `Nat`: every increment in the source is guarded so that, within the
invariant proved below, the values stay far below any wrap-around boundary.
`Instant` and `Duration` are modelled as natural numbers of time units, with
the current clock value (`Instant::now()`) passed explicitly where the source
reads it.  The connection type `C` and waker type `W` are parameters.
-/

namespace PoolInnerRs

/-- Embeds `Pending` (`src/pool_inner.rs:12-15`): the timestamp at which a
resource-creation attempt began. -/
structure Pending where
  startFrom : Nat
deriving DecidableEq, Repr

/-- Embeds `Pending::should_remove` (`src/pool_inner.rs:24-26`):
`Instant::now() > self.start_from + connection_timeout * 6`, with the current
clock value passed explicitly. -/
def Pending.should_remove (p : Pending) (connectionTimeout now : Nat) : Bool :=
  decide (p.startFrom + connectionTimeout * 6 < now)

/-- The waiter registry used by `PoolInner` (field `waiters : WakerList`).

Modelled from the spec: `crate::util::linked_list::WakerList` is not under
`src/`; sections 4.3 and 6 of the spec give its contract.  It is a slot-keyed
store of optional wake handles, kept oldest-registered-first, with stable-key
insert, lookup, removal (returning what the slot stored), and a weak notify
that hands back the oldest still-populated slot's handle after emptying that
slot without removing its key.  Keys are modelled as `Nat` (the source uses
`NonZeroUsize`, so fresh keys start at 1). -/
structure WakerList (W : Type) where
  slots : List (Nat × Option W)
  nextKey : Nat
deriving DecidableEq, Repr

namespace WakerList

variable {W : Type}

/-- Modelled from the spec: an empty registry. -/
def new (W : Type) : WakerList W :=
  { slots := [], nextKey := 1 }

/-- Modelled from the spec: `insert(optionalWakeHandle) -> key`, stable key
allocation, new slots registered youngest-last. -/
def insert (l : WakerList W) (w : Option W) : WakerList W × Nat :=
  ({ slots := l.slots ++ [(l.nextKey, w)], nextKey := l.nextKey + 1 }, l.nextKey)

/-- Modelled from the spec: `getSlot(key)`, the stored optional wake handle of
the slot with this key (`none` when no such slot exists). -/
def getSlot (l : WakerList W) (k : Nat) : Option (Option W) :=
  (l.slots.find? (fun s => s.1 == k)).map (fun s => s.2)

/-- Modelled from the spec: overwrite the stored optional wake handle of the
slot with this key, leaving every other slot alone. -/
def setSlot (l : WakerList W) (k : Nat) (w : Option W) : WakerList W :=
  { l with slots := l.slots.map (fun s => if s.1 == k then (s.1, w) else s) }

/-- Modelled from the spec: `remove(key) -> optional wake-handle`, deleting the
slot and returning what it stored. -/
def remove (l : WakerList W) (k : Nat) : WakerList W × Option W :=
  ({ l with slots := l.slots.filter (fun s => s.1 != k) },
   (l.slots.find? (fun s => s.1 == k)).bind (fun s => s.2))

/-- Helper for the weak notify: scan oldest-first for a populated slot, take
its handle out (the slot's key stays, now holding `none`). -/
def wakeSlots : List (Nat × Option W) → List (Nat × Option W) × Option W
  | [] => ([], none)
  | (k, some w) :: rest => ((k, none) :: rest, some w)
  | (k, none) :: rest =>
    let r := wakeSlots rest
    ((k, none) :: r.1, r.2)

/-- Modelled from the spec: `weakNotifyOne()`, emptying the oldest
still-populated slot and returning its handle for the caller to invoke after
releasing the lock. -/
def wake_one_weak (l : WakerList W) : WakerList W × Option W :=
  let r := wakeSlots l.slots
  ({ l with slots := r.1 }, r.2)

end WakerList

/-- Embeds `PoolInner` (`src/pool_inner.rs:31-36`).  The extra field `cap`
records `conn.capacity()`: the capacity reserved by
`VecDeque::with_capacity(pool_size)` in `PoolLock::new` and read back by
`put_back_incr_spawned`. -/
structure PoolInner (C W : Type) where
  spawned : Nat
  pending : List Pending
  conn : List C
  waiters : WakerList W
  cap : Nat
deriving DecidableEq, Repr

namespace PoolInner

variable {C W : Type}

/-- Embeds `PoolInner::decr_spawned_inner` (`src/pool_inner.rs:39-43`):
`if self.spawned != 0 { self.spawned -= 1 }`. -/
def decr_spawned_inner (s : PoolInner C W) : PoolInner C W :=
  if s.spawned ≠ 0 then { s with spawned := s.spawned - 1 } else s

/-- Embeds `PoolInner::decr_pending_inner` (`src/pool_inner.rs:45-49`):
`count` front pops (a pop on an empty queue is a no-op). -/
def decr_pending_inner (s : PoolInner C W) (count : Nat) : PoolInner C W :=
  { s with pending := s.pending.drop count }

/-- Embeds `PoolInner::total` (`src/pool_inner.rs:51-53`). -/
def total (s : PoolInner C W) : Nat :=
  s.spawned + s.pending.length

/-- Embeds `PoolInner::incr_pending_inner` (`src/pool_inner.rs:55-59`):
`count` back pushes of `Pending::new()`, i.e. markers stamped with the current
clock value. -/
def incr_pending_inner (s : PoolInner C W) (now count : Nat) : PoolInner C W :=
  { s with pending := s.pending ++ List.replicate count { startFrom := now } }

end PoolInner

/-- Embeds `PoolLock::new` (`src/pool_inner.rs:67-76`): empty state whose idle
queue reserves `pool_size` slots. -/
def newPool (C W : Type) (poolSize : Nat) : PoolInner C W :=
  { spawned := 0, pending := [], conn := [], waiters := WakerList.new W,
    cap := poolSize }

namespace PoolInner

variable {C W : Type}

/-- Embeds `PoolLock::decr_spawned` (`src/pool_inner.rs:92-103`): saturating
decrement of `spawned`, then the caller-supplied policy is asked with the new
total; a returned count enqueues that many fresh pending markers and is passed
back. -/
def decr_spawned (s : PoolInner C W) (t : Nat → Option Nat) (now : Nat) :
    PoolInner C W × Option Nat :=
  let s1 := s.decr_spawned_inner
  match t s1.total with
  | some pendingNew => (s1.incr_pending_inner now pendingNew, some pendingNew)
  | none => (s1, none)

/-- Embeds `PoolLock::decr_pending` (`src/pool_inner.rs:106-108`). -/
def decr_pending (s : PoolInner C W) (count : Nat) : PoolInner C W :=
  s.decr_pending_inner count

end PoolInner

/-- One iteration of the loop in `PoolLock::drop_pendings`
(`src/pool_inner.rs:116-122`): look the queue up at a fixed index and remove
that entry if the predicate matches.  The index is taken on the *current*
(possibly already shrunk) queue, exactly as `inner.pending.get(index)` /
`inner.pending.remove(index)` do in the source. -/
def dropPendingStep (sd : Pending → Bool) (q : List Pending) (index : Nat) :
    List Pending :=
  match q[index]? with
  | some p => if sd p then q.eraseIdx index else q
  | none => q

namespace PoolInner

variable {C W : Type}

/-- Embeds `PoolLock::drop_pendings` (`src/pool_inner.rs:110-123`): iterate
`index` over `0..len` of the *original* queue length while removing in place. -/
def drop_pendings (s : PoolInner C W) (sd : Pending → Bool) : PoolInner C W :=
  { s with
    pending := (List.range s.pending.length).foldl (dropPendingStep sd) s.pending }

end PoolInner

/-- One iteration of the eviction loop in `PoolLock::try_drop_conns`
(`src/pool_inner.rs:132-139`): the accumulator carries the idle queue and the
spawned counter; a removal also runs the saturating `decr_spawned_inner`. -/
def dropConnStep {C : Type} (sd : C → Bool) (acc : List C × Nat) (index : Nat) :
    List C × Nat :=
  match acc.1[index]? with
  | some c =>
    if sd c then
      (acc.1.eraseIdx index, if acc.2 ≠ 0 then acc.2 - 1 else acc.2)
    else acc
  | none => acc

namespace PoolInner

variable {C W : Type}

/-- Embeds `PoolLock::try_drop_conns` (`src/pool_inner.rs:126-152`) in the case
where `try_lock` succeeds (when the lock is contended the source returns `None`
without touching the state).  Evict matching idle connections (decrementing
`spawned` for each), then replenish the pending queue up to `min_idle`. -/
def try_drop_conns (s : PoolInner C W) (minIdle : Nat) (sd : C → Bool)
    (now : Nat) : PoolInner C W × Option Nat :=
  let r := (List.range s.conn.length).foldl (dropConnStep sd) (s.conn, s.spawned)
  let s1 := { s with conn := r.1, spawned := r.2 }
  if s1.total < minIdle then
    (s1.incr_pending_inner now (minIdle - s1.total), some (minIdle - s1.total))
  else
    (s1, none)

/-- Embeds `PoolLock::put_back` (`src/pool_inner.rs:155-164`): push the
returned connection onto the idle queue, then weak-notify; the second component
is the handle the source wakes after releasing the lock. -/
def put_back (s : PoolInner C W) (c : C) : PoolInner C W × Option W :=
  let s1 := { s with conn := s.conn ++ [c] }
  let r := s1.waiters.wake_one_weak
  ({ s1 with waiters := r.1 }, r.2)

/-- Embeds `PoolLock::put_back_incr_spawned` (`src/pool_inner.rs:166-179`):
pop one pending marker, push the freshly created connection and increment
`spawned` only while `spawned < conn.capacity()`, then weak-notify. -/
def put_back_incr_spawned (s : PoolInner C W) (c : C) : PoolInner C W × Option W :=
  let s1 := s.decr_pending_inner 1
  let s2 :=
    if s1.spawned < s1.cap then
      { s1 with conn := s1.conn ++ [c], spawned := s1.spawned + 1 }
    else s1
  let r := s2.waiters.wake_one_weak
  ({ s2 with waiters := r.1 }, r.2)

end PoolInner

/-- Embeds `State` (`src/pool_inner.rs:298-302`), the diagnostic snapshot. -/
structure State where
  connections : Nat
  idle_connections : Nat
  pending_connections : List Pending
deriving DecidableEq, Repr

namespace PoolInner

variable {C W : Type}

/-- Embeds `PoolLock::state` (`src/pool_inner.rs:181-188`). -/
def state (s : PoolInner C W) : State :=
  { connections := s.spawned, idle_connections := s.conn.length,
    pending_connections := s.pending }

end PoolInner

/-- Embeds the fields of `PoolLockFuture` owned by the future itself
(`src/pool_inner.rs:193-198`); the two borrowed pool references are passed to
the operations explicitly. -/
structure PoolLockFuture where
  waitKey : Option Nat
  acquired : Bool
deriving DecidableEq, Repr

/-- Embeds `impl Drop for PoolLockFuture` (`src/pool_inner.rs:200-221`): when a
wait key is held, remove its slot; if the removal returned no stored handle and
the future never acquired a connection, weak-notify another waiter.  The second
component is the handle woken after the lock is released. -/
def dropFuture {C W : Type} (f : PoolLockFuture) (s : PoolInner C W) :
    PoolInner C W × Option W :=
  match f.waitKey with
  | none => (s, none)
  | some k =>
    let rem := s.waiters.remove k
    let s1 := { s with waiters := rem.1 }
    if rem.2.isNone && !f.acquired then
      let r := s1.waiters.wake_one_weak
      ({ s1 with waiters := r.1 }, r.2)
    else
      (s1, none)

/-- Embeds the creation trigger of `PoolLockFuture::poll`
(`src/pool_inner.rs:253-264`, the non-`actix-web` build): when
`total < max_size`, optimistically enqueue one pending marker and schedule the
creation task; `spawnOk` is the synchronous result of `shared.spawn`, and a
failure immediately rolls the increment back via `decr_pending_inner(1)`. -/
def pollTrigger {C W : Type} (s : PoolInner C W) (maxSize now : Nat)
    (spawnOk : Bool) : PoolInner C W :=
  if s.total < maxSize then
    let s1 := s.incr_pending_inner now 1
    if spawnOk then s1 else s1.decr_pending_inner 1
  else s

/-- Embeds the waiter-registration step of `PoolLockFuture::poll`
(`src/pool_inner.rs:269-284`): with a wait key, write the current waker into
the slot only when the slot is found empty; without one, insert a fresh slot
holding the waker and remember its key.  (When the held key is absent from the
registry — the source reaches that slot through an unchecked `get` — nothing is
written.) -/
def pollRegister {C W : Type} (f : PoolLockFuture) (s : PoolInner C W) (w : W) :
    PoolLockFuture × PoolInner C W :=
  match f.waitKey with
  | some k =>
    match s.waiters.getSlot k with
    | some none => (f, { s with waiters := s.waiters.setSlot k (some w) })
    | some (some _) => (f, s)
    | none => (f, s)
  | none =>
    let r := s.waiters.insert (some w)
    ({ f with waitKey := some r.2 }, { s with waiters := r.1 })

/-- Embeds `PoolLockFuture::poll` (`src/pool_inner.rs:226-287`).  The fast
`try_lock` pop and the forced-lock pop have the same effect on the embedded
state (the mutex is implicit), so they appear as one idle-queue check: a
non-empty queue hands the front connection out, removes the future's slot and
completes; otherwise the creation trigger runs and the waiter is registered. -/
def poll {C W : Type} (f : PoolLockFuture) (s : PoolInner C W)
    (maxSize now : Nat) (spawnOk : Bool) (w : W) :
    Option C × PoolLockFuture × PoolInner C W :=
  match s.conn with
  | c :: rest =>
    let s1 := { s with conn := rest }
    let s2 :=
      match f.waitKey with
      | some k => { s1 with waiters := (s1.waiters.remove k).1 }
      | none => s1
    (some c, { waitKey := none, acquired := true }, s2)
  | [] =>
    let s1 := pollTrigger s maxSize now spawnOk
    let r := pollRegister f s1 w
    (none, r.1, r.2)

/-- Pool state extended with a ghost counter for the reachability analysis:
`handed` counts the connections currently checked out by callers (popped from
the idle queue by `poll` and not yet returned or discarded).  The counter does
not exist in the source; it records the ownership discipline of the pool's
callers. -/
structure RState (C W : Type) where
  inner : PoolInner C W
  handed : Nat

/-- Modelled from the spec: the policy callback the pool's resource-loss path
supplies to `decr_spawned` (the caller lives outside `src/`); section 4.1 says
it turns a total that fell below the configured floor into a replenishment
count, so it tops the total up to `min_idle`. -/
def replenish (minIdle total : Nat) : Option Nat :=
  if total < minIdle then some (minIdle - total) else none

/-- One observable transition of the pool: each constructor is one exposed
operation executed in its critical section.  `put_back` and `decr_spawned` are
modelled from the spec as consuming one checked-out connection (they are called
by the pool when a caller returns, respectively loses, a connection it had
acquired), which the guard `0 < handed` records. -/
inductive Step (C W : Type) (maxSize minIdle : Nat) : RState C W → RState C W → Prop
  | step_poll (f : PoolLockFuture) (s : PoolInner C W) (handed now : Nat)
      (spawnOk : Bool) (w : W) :
      Step C W maxSize minIdle ⟨s, handed⟩
        ⟨(poll f s maxSize now spawnOk w).2.2,
          handed + if s.conn.isEmpty then 0 else 1⟩
  | step_put_back (s : PoolInner C W) (handed : Nat) (c : C) (h : 0 < handed) :
      Step C W maxSize minIdle ⟨s, handed⟩ ⟨(s.put_back c).1, handed - 1⟩
  | step_put_back_incr_spawned (s : PoolInner C W) (handed : Nat) (c : C) :
      Step C W maxSize minIdle ⟨s, handed⟩
        ⟨(s.put_back_incr_spawned c).1, handed⟩
  | step_decr_spawned (s : PoolInner C W) (handed now : Nat) (h : 0 < handed) :
      Step C W maxSize minIdle ⟨s, handed⟩
        ⟨(s.decr_spawned (replenish minIdle) now).1, handed - 1⟩
  | step_decr_pending (s : PoolInner C W) (handed count : Nat) :
      Step C W maxSize minIdle ⟨s, handed⟩ ⟨s.decr_pending count, handed⟩
  | step_drop_pendings (s : PoolInner C W) (handed : Nat) (sd : Pending → Bool) :
      Step C W maxSize minIdle ⟨s, handed⟩ ⟨s.drop_pendings sd, handed⟩
  | step_try_drop_conns (s : PoolInner C W) (handed now : Nat) (sd : C → Bool) :
      Step C W maxSize minIdle ⟨s, handed⟩
        ⟨(s.try_drop_conns minIdle sd now).1, handed⟩

/-- The inductive invariant of the reachability analysis: the capacity
reserved at construction, the capacity bound on spawned plus pending, and the
ownership bound relating idle and checked-out connections to `spawned`. -/
def Inv (maxSize : Nat) {C W : Type} (r : RState C W) : Prop :=
  r.inner.cap = maxSize ∧
    r.inner.spawned + r.inner.pending.length ≤ maxSize ∧
    r.inner.conn.length + r.handed ≤ r.inner.spawned

/-- The states reachable from a fresh pool (`PoolLock::new(max_size)`; the
constructor argument is the configured maximum size, per the spec's "reserved
capacity (max_size)") by the exposed operations. -/
def Reachable (C W : Type) (maxSize minIdle : Nat) (r : RState C W) : Prop :=
  Relation.ReflTransGen (Step C W maxSize minIdle) ⟨newPool C W maxSize, 0⟩ r

/-! Concrete states used by the witnesses and counterexamples below. -/

/-- A pool whose pending queue holds two markers; input for the
`drop_pendings` evaluation. -/
def s3bug : PoolInner Nat Nat :=
  { spawned := 0, pending := [{ startFrom := 0 }, { startFrom := 1 }],
    conn := [], waiters := WakerList.new Nat, cap := 2 }

/-- A pool with an empty pending queue; input for the `put_back_incr_spawned`
counterexample. -/
def s4c : PoolInner Nat Nat :=
  { spawned := 0, pending := [], conn := [], waiters := WakerList.new Nat,
    cap := 2 }

/-- A pool with one pending marker and room to spawn. -/
def s4w : PoolInner Nat Nat :=
  { spawned := 0, pending := [{ startFrom := 5 }], conn := [],
    waiters := WakerList.new Nat, cap := 1 }

/-- Scenario D of the spec: one spawned connection, one idle connection, no
pending markers. -/
def sD5 : PoolInner Nat Nat :=
  { spawned := 1, pending := [], conn := [10], waiters := WakerList.new Nat,
    cap := 2 }

/-- An empty pool below capacity; input for the creation-trigger rollback. -/
def s6w : PoolInner Nat Nat :=
  { spawned := 0, pending := [], conn := [], waiters := WakerList.new Nat,
    cap := 1 }

/-- A pool with three spawned connections. -/
def s7w : PoolInner Nat Nat :=
  { spawned := 3, pending := [], conn := [], waiters := WakerList.new Nat,
    cap := 3 }

/-- A pool whose registry holds one emptied slot under key 1. -/
def s8w : PoolInner Nat Nat :=
  { spawned := 0, pending := [], conn := [],
    waiters := { slots := [(1, none)], nextKey := 2 }, cap := 1 }

/-- A future registered under key 1. -/
def f8w : PoolLockFuture :=
  { waitKey := some 1, acquired := false }

/-- Scenario C of the spec after `put_back`: the returned connection sits in
the idle queue, waiter 1 has been weak-notified (its slot is empty), waiter 2
is still registered with its wake handle. -/
def sC2 : PoolInner Nat Nat :=
  { spawned := 2, pending := [], conn := [0],
    waiters := { slots := [(1, none), (2, some 7)], nextKey := 3 }, cap := 2 }

/-- The future of waiter 1, being dropped before re-polling. -/
def fC2 : PoolLockFuture :=
  { waitKey := some 1, acquired := false }

/-- A reachable ghost state: a fresh pool of capacity 2 after one completed
creation was put back. -/
def rW1 : RState Nat Nat :=
  ⟨((newPool Nat Nat 2).put_back_incr_spawned 0).1, 0⟩

/-! Helper lemmas. -/

/-- A fold preserves any property its step function preserves. -/
theorem foldl_preserve {α β : Type} (P : β → Prop) (g : β → α → β)
    (hg : ∀ b a, P b → P (g b a)) (l : List α) :
    ∀ b, P b → P (l.foldl g b) := by
  induction l with
  | nil => exact fun _ hb => hb
  | cons a t ih => exact fun b hb => ih (g b a) (hg b a hb)

theorem decr_spawned_inner_spawned {C W : Type} (s : PoolInner C W) :
    s.decr_spawned_inner.spawned = s.spawned - 1 := by
  unfold PoolInner.decr_spawned_inner
  split
  · rfl
  · rename_i h
    simp only [ne_eq, not_not] at h
    omega

theorem decr_spawned_inner_frame {C W : Type} (s : PoolInner C W) :
    s.decr_spawned_inner.pending = s.pending ∧
      s.decr_spawned_inner.conn = s.conn ∧
      s.decr_spawned_inner.cap = s.cap ∧
      s.decr_spawned_inner.waiters = s.waiters := by
  unfold PoolInner.decr_spawned_inner
  split <;> exact ⟨rfl, rfl, rfl, rfl⟩

theorem decr_spawned_spec {C W : Type} (s : PoolInner C W)
    (t : Nat → Option Nat) (now : Nat) :
    ((s.decr_spawned t now).1).spawned = s.spawned - 1 ∧
      ((s.decr_spawned t now).1).conn = s.conn ∧
      ((s.decr_spawned t now).1).cap = s.cap ∧
      ((s.decr_spawned t now).1).pending
        = s.pending ++
            (match t (s.spawned - 1 + s.pending.length) with
              | some n => List.replicate n { startFrom := now }
              | none => []) ∧
      (s.decr_spawned t now).2 = t (s.spawned - 1 + s.pending.length) := by
  obtain ⟨hp, hc, hcap, _⟩ := decr_spawned_inner_frame s
  have hsp := decr_spawned_inner_spawned s
  have htot : s.decr_spawned_inner.total = s.spawned - 1 + s.pending.length := by
    unfold PoolInner.total
    rw [hsp, hp]
  unfold PoolInner.decr_spawned
  dsimp only
  rw [htot]
  cases ht : t (s.spawned - 1 + s.pending.length) with
  | none =>
    refine ⟨hsp, hc, hcap, ?_, rfl⟩
    simp [hp]
  | some n =>
    unfold PoolInner.incr_pending_inner
    exact ⟨hsp, hc, hcap, by rw [hp], rfl⟩

theorem replenish_some {m t n : Nat} (h : replenish m t = some n) :
    t < m ∧ n = m - t := by
  unfold replenish at h
  split at h
  · exact ⟨by assumption, (Option.some_inj.mp h).symm⟩
  · cases h

theorem replenish_none {m t : Nat} (h : replenish m t = none) : m ≤ t := by
  unfold replenish at h
  split at h
  · cases h
  · omega

/-- Characterization of `put_back_incr_spawned` shared by several claims. -/
theorem put_back_incr_spawned_spec {C W : Type} (s : PoolInner C W) (c : C) :
    ((s.put_back_incr_spawned c).1).pending = s.pending.drop 1 ∧
      ((s.put_back_incr_spawned c).1).cap = s.cap ∧
      ((s.put_back_incr_spawned c).1).waiters = (s.waiters.wake_one_weak).1 ∧
      (s.put_back_incr_spawned c).2 = (s.waiters.wake_one_weak).2 ∧
      (s.spawned < s.cap →
        ((s.put_back_incr_spawned c).1).conn = s.conn ++ [c] ∧
        ((s.put_back_incr_spawned c).1).spawned = s.spawned + 1) ∧
      (¬ s.spawned < s.cap →
        ((s.put_back_incr_spawned c).1).conn = s.conn ∧
        ((s.put_back_incr_spawned c).1).spawned = s.spawned) := by
  unfold PoolInner.put_back_incr_spawned PoolInner.decr_pending_inner
  dsimp only
  by_cases h : s.spawned < s.cap
  · rw [if_pos h]
    exact ⟨rfl, rfl, rfl, rfl, fun _ => ⟨rfl, rfl⟩, fun h2 => absurd h h2⟩
  · rw [if_neg h]
    exact ⟨rfl, rfl, rfl, rfl, fun h2 => absurd h2 h, fun _ => ⟨rfl, rfl⟩⟩

/-! Claim theorems, counterexamples and witnesses. -/

/-- C3: `drop_pendings` is claimed to remove exactly the markers matching the
predicate, visiting every original element once.  Evaluating the embedded loop
on a two-element queue with an always-true predicate shows the code removes
only the first marker: after `remove(0)` shifts the survivor into index 0, the
next iteration reads index 1 and finds nothing, so the shifted element is
never visited and a matching marker survives. -/
theorem C3_drop_pendings_skips_shifted :
    (s3bug.drop_pendings (fun _ => true)).pending = [{ startFrom := 1 }] ∧
      ¬ (s3bug.drop_pendings (fun _ => true)).pending = [] := by
  exact ⟨by decide, by decide⟩

/-- C4 counterexample: on a state with an empty pending queue,
`put_back_incr_spawned` does not decrement the pending count by exactly one
(the front pop of `decr_pending_inner(1)` is a no-op), refuting "always
decrements pending by exactly 1". -/
theorem C4_counterexample :
    ¬ (s4c.pending.length = ((s4c.put_back_incr_spawned 7).1).pending.length + 1) := by
  decide

/-- C4 (amended): `put_back_incr_spawned` pops one pending marker from the
front — decrementing the pending count by exactly 1 whenever the queue is
nonempty, and leaving the empty queue empty — pushes the resource into idle
and increments `spawned` exactly when `spawned` is still strictly below the
reserved capacity, otherwise discards it leaving `spawned` and the idle queue
unchanged, and in both cases weak-notifies at most one waiter. -/
theorem C4_put_back_incr_spawned {C W : Type} (s : PoolInner C W) (c : C) :
    ((s.put_back_incr_spawned c).1).pending = s.pending.tail ∧
      (s.pending ≠ [] →
        ((s.put_back_incr_spawned c).1).pending.length + 1 = s.pending.length) ∧
      (s.spawned < s.cap →
        ((s.put_back_incr_spawned c).1).conn = s.conn ++ [c] ∧
        ((s.put_back_incr_spawned c).1).spawned = s.spawned + 1) ∧
      (s.cap ≤ s.spawned →
        ((s.put_back_incr_spawned c).1).conn = s.conn ∧
        ((s.put_back_incr_spawned c).1).spawned = s.spawned) ∧
      ((s.put_back_incr_spawned c).1).waiters = (s.waiters.wake_one_weak).1 ∧
      (s.put_back_incr_spawned c).2 = (s.waiters.wake_one_weak).2 := by
  obtain ⟨hp, _, hw, hn, hlt, hge⟩ := put_back_incr_spawned_spec s c
  refine ⟨by rw [hp, List.drop_one], ?_, hlt, fun h => hge (by omega), hw, hn⟩
  intro hne
  rw [hp, List.length_drop]
  have := List.length_pos.mpr hne
  omega

/-- C4 witness: on a pool with one pending marker and room to spawn, the put
back pops exactly one marker and increments `spawned`. -/
theorem C4_witness :
    s4w.pending ≠ [] ∧ s4w.spawned < s4w.cap ∧
      ((s4w.put_back_incr_spawned 9).1).pending.length + 1 = s4w.pending.length ∧
      ((s4w.put_back_incr_spawned 9).1).spawned = s4w.spawned + 1 :=
  ⟨by decide, by decide,
    (C4_put_back_incr_spawned s4w 9).2.1 (by decide),
    ((C4_put_back_incr_spawned s4w 9).2.2.1 (by decide)).2⟩

/-- C7: `decr_spawned_inner` saturates at zero — a decrement on zero is a
no-op, a decrement on a positive counter subtracts exactly one — hence any
number of decrements (also through the public `decr_spawned`) never takes the
counter below zero: `n` iterated calls leave `spawned - n` floored at 0. -/
theorem C7_saturating_decrement {C W : Type} (s : PoolInner C W) :
    (s.spawned = 0 → s.decr_spawned_inner.spawned = 0) ∧
      (0 < s.spawned → s.decr_spawned_inner.spawned = s.spawned - 1) ∧
      (∀ n, ((fun x : PoolInner C W => x.decr_spawned_inner)^[n] s).spawned
        = s.spawned - n) ∧
      (∀ t now, ((s.decr_spawned t now).1).spawned = s.spawned - 1) := by
  have hiter : ∀ (n : Nat) (x : PoolInner C W),
      ((fun x : PoolInner C W => x.decr_spawned_inner)^[n] x).spawned
        = x.spawned - n := by
    intro n
    induction n with
    | zero => intro x; simp
    | succ n ih =>
      intro x
      rw [Function.iterate_succ_apply]
      rw [ih]
      rw [decr_spawned_inner_spawned]
      omega
  refine ⟨?_, ?_, fun n => hiter n s, ?_⟩
  · intro h; rw [decr_spawned_inner_spawned, h]
  · intro _; exact decr_spawned_inner_spawned s
  · intro t now; exact (decr_spawned_spec s t now).1

/-- C7 witness: a pool with three spawned connections; one decrement
subtracts one, five iterated decrements floor at zero. -/
theorem C7_witness :
    0 < s7w.spawned ∧ s7w.decr_spawned_inner.spawned = s7w.spawned - 1 ∧
      ((fun x : PoolInner Nat Nat => x.decr_spawned_inner)^[5] s7w).spawned
        = s7w.spawned - 5 :=
  ⟨by decide, (C7_saturating_decrement s7w).2.1 (by decide),
    (C7_saturating_decrement s7w).2.2.1 5⟩

/-- C9: a pending marker is reported stale exactly when the current clock is
strictly past its start timestamp plus six connection timeouts; the check is a
pure function of the marker and the clock. -/
theorem C9_pending_staleness (p : Pending) (t now : Nat) :
    p.should_remove t now = true ↔ now > p.startFrom + 6 * t := by
  simp only [Pending.should_remove, decide_eq_true_eq, gt_iff_lt]
  omega

/-- C10: dropping a never-polled future (no wait key allocated) leaves the
pool state — spawned, pending, idle and the waiter registry — untouched and
wakes nobody. -/
theorem C10_drop_unpolled_noop {C W : Type} (f : PoolLockFuture)
    (s : PoolInner C W) (h : f.waitKey = none) :
    dropFuture f s = (s, none) := by
  unfold dropFuture
  rw [h]

/-- C10 witness: dropping the freshly created future on a fresh pool. -/
theorem C10_witness :
    (PoolLockFuture.mk none false).waitKey = none ∧
      dropFuture (PoolLockFuture.mk none false) (newPool Nat Nat 1)
        = (newPool Nat Nat 1, none) :=
  ⟨rfl, C10_drop_unpolled_noop (PoolLockFuture.mk none false) (newPool Nat Nat 1) rfl⟩

theorem pollTrigger_waiters {C W : Type} (s : PoolInner C W) (m now : Nat)
    (b : Bool) : (pollTrigger s m now b).waiters = s.waiters := by
  unfold pollTrigger PoolInner.incr_pending_inner PoolInner.decr_pending_inner
  split
  · split <;> rfl
  · rfl

theorem pollTrigger_frame {C W : Type} (s : PoolInner C W) (m now : Nat)
    (b : Bool) :
    (pollTrigger s m now b).spawned = s.spawned ∧
      (pollTrigger s m now b).conn = s.conn ∧
      (pollTrigger s m now b).cap = s.cap := by
  unfold pollTrigger PoolInner.incr_pending_inner PoolInner.decr_pending_inner
  split
  · split <;> exact ⟨rfl, rfl, rfl⟩
  · exact ⟨rfl, rfl, rfl⟩

theorem pollTrigger_pending_length {C W : Type} (s : PoolInner C W)
    (m now : Nat) (b : Bool) (h : s.total < m) :
    (pollTrigger s m now b).pending.length
      = if b then s.pending.length + 1 else s.pending.length := by
  unfold pollTrigger PoolInner.incr_pending_inner PoolInner.decr_pending_inner
  rw [if_pos h]
  cases b
  · simp
  · simp

theorem pollTrigger_total_le {C W : Type} (s : PoolInner C W) (m now : Nat)
    (b : Bool) (h : s.total ≤ m) : (pollTrigger s m now b).total ≤ m := by
  by_cases hlt : s.total < m
  · have hp := pollTrigger_pending_length s m now b hlt
    have hsp := (pollTrigger_frame s m now b).1
    unfold PoolInner.total at hlt ⊢
    rw [hp, hsp]
    cases b <;> simp <;> omega
  · unfold pollTrigger
    rw [if_neg hlt]
    exact h

theorem pollRegister_frame {C W : Type} (f : PoolLockFuture)
    (s : PoolInner C W) (w : W) :
    (pollRegister f s w).2.spawned = s.spawned ∧
      (pollRegister f s w).2.pending = s.pending ∧
      (pollRegister f s w).2.conn = s.conn ∧
      (pollRegister f s w).2.cap = s.cap := by
  unfold pollRegister
  cases f.waitKey with
  | none => exact ⟨rfl, rfl, rfl, rfl⟩
  | some k =>
    dsimp only
    cases s.waiters.getSlot k with
    | none => exact ⟨rfl, rfl, rfl, rfl⟩
    | some v =>
      cases v with
      | none => exact ⟨rfl, rfl, rfl, rfl⟩
      | some w0 => exact ⟨rfl, rfl, rfl, rfl⟩

theorem poll_conn_empty {C W : Type} (f : PoolLockFuture) (s : PoolInner C W)
    (m now : Nat) (b : Bool) (w : W) (hc : s.conn = []) :
    (poll f s m now b w).2 = pollRegister f (pollTrigger s m now b) w := by
  unfold poll
  rw [hc]

theorem poll_conn_cons {C W : Type} (f : PoolLockFuture) (s : PoolInner C W)
    (m now : Nat) (b : Bool) (w : W) (c : C) (rest : List C)
    (hc : s.conn = c :: rest) :
    ((poll f s m now b w).2.2).spawned = s.spawned ∧
      ((poll f s m now b w).2.2).pending = s.pending ∧
      ((poll f s m now b w).2.2).conn = rest ∧
      ((poll f s m now b w).2.2).cap = s.cap ∧
      (poll f s m now b w).1 = some c := by
  unfold poll
  rw [hc]
  cases f.waitKey <;> exact ⟨rfl, rfl, rfl, rfl, rfl⟩

theorem wakeSlots_isSome {W : Type} :
    ∀ l : List (Nat × Option W), (∃ e ∈ l, e.2.isSome) →
      (WakerList.wakeSlots l).2.isSome := by
  intro l
  induction l with
  | nil => rintro ⟨e, he, _⟩; cases he
  | cons a rest ih =>
    rintro ⟨e, he, hs⟩
    rcases a with ⟨k, _ | v⟩
    · show ((WakerList.wakeSlots rest).2).isSome
      apply ih
      rcases List.mem_cons.mp he with he | he
      · subst he; cases hs
      · exact ⟨e, he, hs⟩
    · rfl

/-- C2: dropping a registered, non-acquired future removes its slot; when the
removal hands back no stored wake handle (a weak notify already consumed it),
the drop immediately weak-notifies the registry again — so another populated
waiter, when one exists, receives the handoff; when the removed slot still
stored its handle, nothing further is woken. -/
theorem C2_cancel_propagates_notify {C W : Type} (f : PoolLockFuture)
    (s : PoolInner C W) (k : Nat) (hk : f.waitKey = some k)
    (ha : f.acquired = false) :
    ((s.waiters.remove k).2 = none →
      dropFuture f s
        = ({ s with waiters := ((s.waiters.remove k).1.wake_one_weak).1 },
            ((s.waiters.remove k).1.wake_one_weak).2) ∧
      ((∃ e ∈ ((s.waiters.remove k).1).slots, e.2.isSome) →
        ((dropFuture f s).2).isSome)) ∧
    (∀ w0, (s.waiters.remove k).2 = some w0 →
      dropFuture f s = ({ s with waiters := (s.waiters.remove k).1 }, none)) := by
  unfold dropFuture
  rw [hk]
  dsimp only
  rw [ha]
  constructor
  · intro hnone
    rw [hnone]
    have heq :
        (if (none : Option W).isNone && !false then
            let r := ((({ s with waiters := (s.waiters.remove k).1 } :
              PoolInner C W)).waiters.wake_one_weak)
            (({ ({ s with waiters := (s.waiters.remove k).1 } : PoolInner C W)
                with waiters := r.1 } : PoolInner C W), r.2)
          else ({ s with waiters := (s.waiters.remove k).1 }, none))
          = ({ s with waiters := ((s.waiters.remove k).1.wake_one_weak).1 },
              ((s.waiters.remove k).1.wake_one_weak).2) := by
      rfl
    refine ⟨heq, ?_⟩
    intro hex
    exact wakeSlots_isSome _ hex
  · intro w0 hsome
    rw [hsome]
    rfl

/-- C2 witness (Scenario C): after `put_back` pushed the returned connection
and weak-notified waiter 1 (emptying its slot), dropping waiter 1's future
weak-notifies waiter 2, whose wake handle 7 is handed out. -/
theorem C2_witness :
    (sC2.waiters.remove 1).2 = none ∧ (dropFuture fC2 sC2).2 = some 7 := by
  refine ⟨by decide, ?_⟩
  have h := ((C2_cancel_propagates_notify fC2 sC2 1 rfl rfl).1 (by decide)).1
  rw [h]
  decide

/-- C6: in a poll that finds the idle queue empty and total strictly below
`max_size`, one pending marker is optimistically enqueued; when the spawn is
scheduled the snapshot shows one more pending connection, and when scheduling
fails synchronously the increment is rolled back in the same poll, so the
snapshot shows the pre-increment pending count. -/
theorem C6_rollback_on_failed_spawn {C W : Type} (f : PoolLockFuture)
    (s : PoolInner C W) (maxSize now : Nat) (w : W) (hc : s.conn = [])
    (h : s.total < maxSize) :
    ((((poll f s maxSize now true w).2.2).state).pending_connections).length
        = ((s.state).pending_connections).length + 1 ∧
      ((((poll f s maxSize now false w).2.2).state).pending_connections).length
        = ((s.state).pending_connections).length := by
  have h1 := poll_conn_empty f s maxSize now true w hc
  have h2 := poll_conn_empty f s maxSize now false w hc
  unfold PoolInner.state
  dsimp only
  have e1 : ((poll f s maxSize now true w).2.2) = (pollRegister f (pollTrigger s maxSize now true) w).2 := by
    rw [h1]
  have e2 : ((poll f s maxSize now false w).2.2) = (pollRegister f (pollTrigger s maxSize now false) w).2 := by
    rw [h2]
  rw [e1, e2]
  rw [(pollRegister_frame f (pollTrigger s maxSize now true) w).2.1]
  rw [(pollRegister_frame f (pollTrigger s maxSize now false) w).2.1]
  rw [pollTrigger_pending_length s maxSize now true h]
  rw [pollTrigger_pending_length s maxSize now false h]
  exact ⟨rfl, rfl⟩

/-- C6 witness: an empty pool of capacity 1; a failed spawn leaves the
snapshot's pending count at 0, a successful one raises it to 1. -/
theorem C6_witness :
    s6w.conn = [] ∧ s6w.total < 1 ∧
      ((((poll (PoolLockFuture.mk none false) s6w 1 0 false 3).2.2).state).pending_connections).length
        = ((s6w.state).pending_connections).length :=
  ⟨rfl, by decide,
    (C6_rollback_on_failed_spawn (PoolLockFuture.mk none false) s6w 1 0 3 rfl (by decide)).2⟩

/-- C8: the registration step of `poll` (reached when no idle connection was
found): with a wait key whose slot is found empty, the current wake handle is
written into that slot; with a still-populated slot, the registry is left
unchanged — the in-flight notification is not clobbered; with no wait key, a
fresh slot holding the handle is inserted and its key is remembered in the
future. -/
theorem C8_registration {C W : Type} (f : PoolLockFuture) (s : PoolInner C W)
    (w : W) (maxSize now : Nat) (spawnOk : Bool) (hc : s.conn = []) :
    (∀ k, f.waitKey = some k → s.waiters.getSlot k = some none →
      ((poll f s maxSize now spawnOk w).2.2).waiters
          = s.waiters.setSlot k (some w) ∧
        (poll f s maxSize now spawnOk w).2.1 = f) ∧
    (∀ k w0, f.waitKey = some k → s.waiters.getSlot k = some (some w0) →
      ((poll f s maxSize now spawnOk w).2.2).waiters = s.waiters ∧
        (poll f s maxSize now spawnOk w).2.1 = f) ∧
    (f.waitKey = none →
      ((poll f s maxSize now spawnOk w).2.2).waiters
          = (s.waiters.insert (some w)).1 ∧
        (poll f s maxSize now spawnOk w).2.1
          = { f with waitKey := some (s.waiters.insert (some w)).2 }) := by
  have hp := poll_conn_empty f s maxSize now spawnOk w hc
  have hw := pollTrigger_waiters s maxSize now spawnOk
  refine ⟨?_, ?_, ?_⟩
  · intro k hk hg
    rw [hp]
    unfold pollRegister
    rw [hk]
    dsimp only
    rw [hw, hg]
    exact ⟨rfl, rfl⟩
  · intro k w0 hk hg
    rw [hp]
    unfold pollRegister
    rw [hk]
    dsimp only
    rw [hw, hg]
    exact ⟨hw, rfl⟩
  · intro hk
    rw [hp]
    unfold pollRegister
    rw [hk]
    dsimp only
    rw [hw]
    exact ⟨rfl, rfl⟩

/-- C8 witness: a future holding key 1 whose slot was emptied by a weak
notify; re-polling writes the fresh handle 42 back into slot 1. -/
theorem C8_witness :
    f8w.waitKey = some 1 ∧ s8w.waiters.getSlot 1 = some none ∧
      ((poll f8w s8w 1 0 true 42).2.2).waiters = s8w.waiters.setSlot 1 (some 42) :=
  ⟨rfl, by decide,
    ((C8_registration f8w s8w 42 1 0 true rfl).1 1 rfl (by decide)).1⟩

/-- Invariant of the eviction loop of `try_drop_conns`: the queue only loses
elements, and the spawned counter goes down by exactly one per removal (the
saturating decrement never bottoms out because the queue length starts at or
below the counter). -/
theorem dropConn_loop {C : Type} (sd : C → Bool) (c0 : List C) (n0 : Nat)
    (h0 : c0.length ≤ n0) (l : List Nat) :
    ((l.foldl (dropConnStep sd) (c0, n0)).1).Sublist c0 ∧
      (l.foldl (dropConnStep sd) (c0, n0)).2 + c0.length
        = n0 + ((l.foldl (dropConnStep sd) (c0, n0)).1).length := by
  apply foldl_preserve
    (P := fun acc : List C × Nat =>
      acc.1.Sublist c0 ∧ acc.2 + c0.length = n0 + acc.1.length)
  · intro b a hb
    rcases hb with ⟨hsub, heq⟩
    unfold dropConnStep
    cases hg : b.1[a]? with
    | none => exact ⟨hsub, heq⟩
    | some c =>
      dsimp only
      by_cases hd : sd c
      · rw [if_pos hd]
        have hlt : a < b.1.length := by
          rcases List.getElem?_eq_some_iff.mp hg with ⟨h1, _⟩
          exact h1
        have hlen := List.length_eraseIdx_of_lt hlt
        have hble := hsub.length_le
        have hb2 : b.2 ≠ 0 := by omega
        rw [if_pos hb2]
        refine ⟨(List.eraseIdx_sublist b.1 a).trans hsub, ?_⟩
        dsimp only
        omega
      · rw [if_neg hd]
        exact ⟨hsub, heq⟩
  · exact ⟨List.Sublist.refl c0, rfl⟩

/-- Characterization of `try_drop_conns` (lock obtained) shared by C5 and the
reachability invariant. -/
theorem try_drop_conns_spec {C W : Type} (s : PoolInner C W) (m now : Nat)
    (sd : C → Bool) (h : s.conn.length ≤ s.spawned) :
    (((s.try_drop_conns m sd now).1).conn).Sublist s.conn ∧
      ((s.try_drop_conns m sd now).1).spawned + s.conn.length
        = s.spawned + (((s.try_drop_conns m sd now).1).conn).length ∧
      ((s.try_drop_conns m sd now).1).cap = s.cap ∧
      (((s.try_drop_conns m sd now).1).spawned + s.pending.length < m →
        ((s.try_drop_conns m sd now).1).pending
            = s.pending ++ List.replicate
                (m - (((s.try_drop_conns m sd now).1).spawned + s.pending.length))
                { startFrom := now } ∧
          (s.try_drop_conns m sd now).2
            = some (m - (((s.try_drop_conns m sd now).1).spawned + s.pending.length))) ∧
      (m ≤ ((s.try_drop_conns m sd now).1).spawned + s.pending.length →
        ((s.try_drop_conns m sd now).1).pending = s.pending ∧
          (s.try_drop_conns m sd now).2 = none) := by
  obtain ⟨hsub, heq⟩ := dropConn_loop sd s.conn s.spawned h (List.range s.conn.length)
  unfold PoolInner.try_drop_conns PoolInner.incr_pending_inner PoolInner.total
  dsimp only
  by_cases hlt :
      ((List.range s.conn.length).foldl (dropConnStep sd) (s.conn, s.spawned)).2
        + s.pending.length < m
  · rw [if_pos hlt]
    dsimp only
    exact ⟨hsub, heq, rfl, fun _ => ⟨rfl, rfl⟩, fun h2 => absurd hlt (by omega)⟩
  · rw [if_neg hlt]
    dsimp only
    exact ⟨hsub, heq, rfl, fun h2 => absurd h2 hlt, fun _ => ⟨rfl, rfl⟩⟩

/-- C5: when `try_drop_conns` obtains the lock it decrements `spawned` by
exactly one per evicted idle connection (the evicted connections form a
sub-sequence of the idle queue), and afterwards, when the surviving total
`spawned + |pending|` is strictly below `min_idle`, it enqueues exactly
`min_idle - total` fresh pending markers and returns that count, otherwise it
enqueues nothing and returns `none`. -/
theorem C5_try_drop_conns_replenish {C W : Type} (s : PoolInner C W)
    (m now : Nat) (sd : C → Bool) (h : s.conn.length ≤ s.spawned) :
    ((s.try_drop_conns m sd now).1).spawned
        = s.spawned - (s.conn.length - (((s.try_drop_conns m sd now).1).conn).length) ∧
      (((s.try_drop_conns m sd now).1).conn).Sublist s.conn ∧
      (((s.try_drop_conns m sd now).1).spawned + s.pending.length < m →
        (s.try_drop_conns m sd now).2
            = some (m - (((s.try_drop_conns m sd now).1).spawned + s.pending.length)) ∧
          ((s.try_drop_conns m sd now).1).pending
            = s.pending ++ List.replicate
                (m - (((s.try_drop_conns m sd now).1).spawned + s.pending.length))
                { startFrom := now }) ∧
      (m ≤ ((s.try_drop_conns m sd now).1).spawned + s.pending.length →
        (s.try_drop_conns m sd now).2 = none ∧
          ((s.try_drop_conns m sd now).1).pending = s.pending) := by
  obtain ⟨hsub, heq, _, hyes, hno⟩ := try_drop_conns_spec s m now sd h
  have hlen := hsub.length_le
  refine ⟨by omega, hsub, ?_, ?_⟩
  · intro h2
    obtain ⟨hpend, hres⟩ := hyes h2
    exact ⟨hres, hpend⟩
  · intro h2
    obtain ⟨hpend, hres⟩ := hno h2
    exact ⟨hres, hpend⟩

/-- C5 witness (Scenario D): `spawned = 1`, one idle connection, an
always-false predicate and `min_idle = 2`: the call returns `Some 1` and
enqueues exactly one pending marker. -/
theorem C5_witness :
    sD5.conn.length ≤ sD5.spawned ∧
      (sD5.try_drop_conns 2 (fun _ => false) 7).2 = some 1 ∧
      ((sD5.try_drop_conns 2 (fun _ => false) 7).1).pending = [{ startFrom := 7 }] := by
  have h := (C5_try_drop_conns_replenish sD5 2 7 (fun _ => false) (by decide)).2.2.1
    (by decide)
  exact ⟨by decide, h.1.trans (by decide), h.2.trans (by decide)⟩

/-- Frame lemma: `drop_pendings` only removes elements of the pending queue
and touches no other field. -/
theorem drop_pendings_sublist {C W : Type} (s : PoolInner C W)
    (sd : Pending → Bool) :
    ((s.drop_pendings sd).pending).Sublist s.pending ∧
      (s.drop_pendings sd).spawned = s.spawned ∧
      (s.drop_pendings sd).conn = s.conn ∧
      (s.drop_pendings sd).cap = s.cap := by
  refine ⟨?_, rfl, rfl, rfl⟩
  unfold PoolInner.drop_pendings
  dsimp only
  apply foldl_preserve (P := fun q : List Pending => q.Sublist s.pending)
  · intro q i hq
    unfold dropPendingStep
    cases hg : q[i]? with
    | none => exact hq
    | some p =>
      dsimp only
      by_cases hd : sd p
      · rw [if_pos hd]
        exact (List.eraseIdx_sublist q i).trans hq
      · rw [if_neg hd]
        exact hq
  · exact List.Sublist.refl _

/-- Every exposed operation preserves the inductive invariant. -/
theorem step_preserves {C W : Type} {maxSize minIdle : Nat}
    (hmin : minIdle ≤ maxSize) {r r' : RState C W}
    (hs : Step C W maxSize minIdle r r') (hI : Inv maxSize r) :
    Inv maxSize r' := by
  obtain ⟨hcap, h1, h2⟩ := hI
  cases hs with
  | step_poll f s handed now spawnOk w =>
    dsimp only at hcap h1 h2
    cases hc : s.conn with
    | nil =>
      have hp := poll_conn_empty f s maxSize now spawnOk w hc
      have e : (poll f s maxSize now spawnOk w).2.2
          = (pollRegister f (pollTrigger s maxSize now spawnOk) w).2 := by
        rw [hp]
      have hrf := pollRegister_frame f (pollTrigger s maxSize now spawnOk) w
      have htf := pollTrigger_frame s maxSize now spawnOk
      have htot := pollTrigger_total_le s maxSize now spawnOk h1
      unfold PoolInner.total at htot
      unfold Inv
      refine ⟨?_, ?_, ?_⟩
      · dsimp only
        rw [e, hrf.2.2.2, htf.2.2]
        exact hcap
      · dsimp only
        rw [e, hrf.1, hrf.2.1]
        exact htot
      · dsimp only
        rw [e, hrf.1, hrf.2.2.1, htf.1, htf.2.1, hc]
        have hz : (if ([] : List C).isEmpty then 0 else 1) = 0 := rfl
        rw [hz]
        rw [hc] at h2
        simp only [List.length_nil] at h2 ⊢
        omega
    | cons c rest =>
      have hp := poll_conn_cons f s maxSize now spawnOk w c rest hc
      unfold Inv
      refine ⟨?_, ?_, ?_⟩
      · dsimp only
        rw [hp.2.2.2.1]
        exact hcap
      · dsimp only
        rw [hp.1, hp.2.1]
        exact h1
      · dsimp only
        rw [hp.1, hp.2.2.1]
        have ho : (if (c :: rest : List C).isEmpty then 0 else 1) = 1 := rfl
        rw [ho]
        rw [hc] at h2
        simp only [List.length_cons] at h2
        omega
  | step_put_back s handed c h =>
    dsimp only at hcap h1 h2
    unfold Inv
    refine ⟨hcap, h1, ?_⟩
    dsimp only
    have hconn : ((s.put_back c).1).conn = s.conn ++ [c] := rfl
    have hsp : ((s.put_back c).1).spawned = s.spawned := rfl
    rw [hconn, hsp, List.length_append]
    have hc1 : ([c] : List C).length = 1 := rfl
    omega
  | step_put_back_incr_spawned s handed c =>
    dsimp only at hcap h1 h2
    obtain ⟨hp, hcap2, _, _, hlt, hge⟩ := put_back_incr_spawned_spec s c
    unfold Inv
    by_cases hb : s.spawned < s.cap
    · obtain ⟨hconn, hsp⟩ := hlt hb
      refine ⟨?_, ?_, ?_⟩
      · dsimp only
        rw [hcap2]
        exact hcap
      · dsimp only
        rw [hsp, hp, List.length_drop]
        omega
      · dsimp only
        rw [hsp, hconn, List.length_append]
        have hc1 : ([c] : List C).length = 1 := rfl
        omega
    · obtain ⟨hconn, hsp⟩ := hge hb
      refine ⟨?_, ?_, ?_⟩
      · dsimp only
        rw [hcap2]
        exact hcap
      · dsimp only
        rw [hsp, hp, List.length_drop]
        omega
      · dsimp only
        rw [hsp, hconn]
        exact h2
  | step_decr_spawned s handed now h =>
    dsimp only at hcap h1 h2
    obtain ⟨hsp, hconn, hcap2, hpend, _⟩ :=
      decr_spawned_spec s (replenish minIdle) now
    unfold Inv
    refine ⟨?_, ?_, ?_⟩
    · dsimp only
      rw [hcap2]
      exact hcap
    · dsimp only
      rw [hsp, hpend]
      cases hr : replenish minIdle (s.spawned - 1 + s.pending.length) with
      | none =>
        rw [List.append_nil]
        omega
      | some n =>
        obtain ⟨hlt2, hn⟩ := replenish_some hr
        rw [List.length_append, List.length_replicate]
        omega
    · dsimp only
      rw [hsp, hconn]
      omega
  | step_decr_pending s handed count =>
    dsimp only at hcap h1 h2
    have hsp : (s.decr_pending count).spawned = s.spawned := rfl
    have hconn : (s.decr_pending count).conn = s.conn := rfl
    have hpend : (s.decr_pending count).pending = s.pending.drop count := rfl
    unfold Inv
    refine ⟨hcap, ?_, ?_⟩
    · dsimp only
      rw [hsp, hpend, List.length_drop]
      omega
    · dsimp only
      rw [hsp, hconn]
      exact h2
  | step_drop_pendings s handed sd =>
    dsimp only at hcap h1 h2
    obtain ⟨hsub, hsp, hconn, hcap2⟩ := drop_pendings_sublist s sd
    have hlen := hsub.length_le
    unfold Inv
    refine ⟨?_, ?_, ?_⟩
    · dsimp only
      rw [hcap2]
      exact hcap
    · dsimp only
      rw [hsp]
      omega
    · dsimp only
      rw [hsp, hconn]
      exact h2
  | step_try_drop_conns s handed now sd =>
    dsimp only at hcap h1 h2
    have hcl : s.conn.length ≤ s.spawned := by omega
    obtain ⟨hsub, heq, hcap2, hyes, hno⟩ := try_drop_conns_spec s minIdle now sd hcl
    have hlen := hsub.length_le
    unfold Inv
    refine ⟨?_, ?_, ?_⟩
    · dsimp only
      rw [hcap2]
      exact hcap
    · dsimp only
      by_cases hb :
          ((s.try_drop_conns minIdle sd now).1).spawned + s.pending.length < minIdle
      · obtain ⟨hpend, _⟩ := hyes hb
        rw [hpend, List.length_append, List.length_replicate]
        omega
      · obtain ⟨hpend, _⟩ := hno (by omega)
        rw [hpend]
        omega
    · dsimp only
      omega

/-- C1: in every reachable pool state (the lock released between operations),
`spawned + |pending|` never exceeds the configured maximum and the idle queue
never outgrows the spawned count; each exposed operation — poll with its
creation trigger, `put_back`, `put_back_incr_spawned`, `decr_spawned`,
`decr_pending`, `drop_pendings`, `try_drop_conns` — preserves both bounds
(this is the inductive step of the reachability induction). -/
theorem C1_reachable_invariant {C W : Type} {maxSize minIdle : Nat}
    (hmin : minIdle ≤ maxSize) {r : RState C W}
    (h : Reachable C W maxSize minIdle r) :
    r.inner.spawned + r.inner.pending.length ≤ maxSize ∧
      r.inner.conn.length ≤ r.inner.spawned := by
  have hInv : Inv maxSize r := by
    unfold Reachable at h
    induction h with
    | refl =>
      refine ⟨rfl, ?_, ?_⟩ <;> simp [newPool, Inv]
    | tail hab hbc ih => exact step_preserves hmin hbc ih
  obtain ⟨_, hA, hB⟩ := hInv
  exact ⟨hA, by omega⟩

/-- C1 witness: a pool of capacity 2 after one completed creation was put
back; the state is reachable and satisfies both bounds. -/
theorem C1_witness :
    (1 : Nat) ≤ 2 ∧ Reachable Nat Nat 2 1 rW1 ∧
      rW1.inner.spawned + rW1.inner.pending.length ≤ 2 ∧
      rW1.inner.conn.length ≤ rW1.inner.spawned :=
  ⟨by decide,
    Relation.ReflTransGen.single
      (Step.step_put_back_incr_spawned (newPool Nat Nat 2) 0 0),
    (C1_reachable_invariant (show (1 : Nat) ≤ 2 by decide)
      (Relation.ReflTransGen.single
        (Step.step_put_back_incr_spawned (newPool Nat Nat 2) 0 0))).1,
    (C1_reachable_invariant (show (1 : Nat) ≤ 2 by decide)
      (Relation.ReflTransGen.single
        (Step.step_put_back_incr_spawned (newPool Nat Nat 2) 0 0))).2⟩

end PoolInnerRs
